import Mathlib

/-!
# Vocabulary trainer (`script.js`): loader merge, selection store, word aggregation

A shallow embedding of the `App` class of `src/script.js`.

Modelling conventions

* JSON documents follow the shape of the input files: a `number` is an
  integer or absent; `lessons`, `pages` and `words` are arrays or absent, and
  an absent array and a JSON `null` in its place behave alike in the
  expressions the code applies to them (`data && data.lessons`,
  `lesson && lesson.pages`, `p.words || []`), so both are `none`. A fetched
  document may itself be `null`.
* A JavaScript `Set` is the list of its elements in insertion order:
  `add` appends an element that is not yet present, `delete` removes it,
  `has` is membership, `size > 0` is non-emptiness, `forEach` visits the list
  from its head.
* `Array.prototype.sort` is stable; with a consistent comparator its result is
  the unique stable sorted arrangement, computed here by insertion.
* `this.data` is assigned by `processData` before any handler is registered
  (`init` awaits `loadData` before `setupEventListeners`); the field `data` of
  the state holds `this.data.lessons`.
* Integers render in decimal, as JavaScript renders every integer of the
  double range below `1e21`.
-/

namespace Weiner

/-! ## Data model -/

/-- A word entry of a page; `example_` is the field `example`. -/
structure Word where
  german : Option String
  czech : Option String
  example_ : Option String
  plural : Option String
  deriving DecidableEq, Repr

/-- A page of a lesson: `{ number, words }`. -/
structure Page where
  number : Option Int
  words : Option (List Word)
  deriving DecidableEq, Repr

/-- A lesson: `{ number, name, pages }`. -/
structure Lesson where
  number : Option Int
  name : Option String
  pages : Option (List Page)
  deriving DecidableEq, Repr

/-- A loaded JSON document: `{ lessons }`. -/
structure Doc where
  lessons : Option (List Lesson)
  deriving DecidableEq, Repr

/-- A JavaScript number as it occurs in `selectedLessons`: the result of
`parseInt`, an integer or `NaN`. -/
inductive JsNum where
  | int (n : Int)
  | nan
  deriving DecidableEq, Repr

/-- The state of the `App` object: its fields and the values of the checkboxes
it has rendered into `checkboxesLessons` and `checkboxesPages`. -/
structure App where
  /-- The array `this.data.lessons`. -/
  data : List Lesson
  currentWords : List Word
  selectedLessons : List JsNum
  selectedPages : List String
  /-- The `lesson.number` rendered as the value of each `.lesson-cb`, in
  document order. -/
  lessonCbs : List (Option Int)
  /-- The value of each `.page-cb`, in document order. -/
  pageCbs : List String
  deriving DecidableEq, Repr

/-! ## JavaScript primitives -/

/-- The method `Set.prototype.add` on the insertion-ordered element list. -/
def setAdd {α : Type} [DecidableEq α] (s : List α) (x : α) : List α :=
  if x ∈ s then s else s ++ [x]

/-- The method `Set.prototype.delete` on the insertion-ordered element list. -/
def setDelete {α : Type} [DecidableEq α] (s : List α) (x : α) : List α :=
  s.filter (fun y => decide (y ≠ x))

/-- Decimal rendering of an integer in a template literal. -/
def intToString (n : Int) : String :=
  if n < 0 then "-" ++ Nat.repr n.natAbs else Nat.repr n.natAbs

/-- Rendering of a `number` field inside a template literal:
an absent field renders as `undefined`. -/
def jsStr : Option Int → String
  | some n => intToString n
  | none => "undefined"

/-- The expression `x.number || 0`. -/
def numberOrZero : Option Int → Int
  | some n => n
  | none => 0

/-- The loose comparison `l.number == lessonNum` of a `number` field with an
element of `selectedLessons`: an absent field equals no number, and `NaN`
equals nothing. -/
def looseEq : Option Int → JsNum → Bool
  | some a, JsNum.int b => decide (a = b)
  | _, _ => false

/-- The expression `parseInt(cb.value)` for a checkbox whose value was rendered
from `lesson.number`: a decimal integer reads back as itself, the text
`undefined` gives `NaN`. -/
def parseIntValue : Option Int → JsNum
  | some n => JsNum.int n
  | none => JsNum.nan

/-! ## Database loader -/

/-- The comparator `(a, b) => (a.number || 0) - (b.number || 0)`. -/
def compareLessons (a b : Lesson) : Int :=
  numberOrZero a.number - numberOrZero b.number

/-- Insertion of `a`, which precedes every element of `l` in the input, into
the sorted list `l`: `a` stays in front of the first element it does not
compare greater than. -/
def insertLesson (a : Lesson) : List Lesson → List Lesson
  | [] => [a]
  | b :: l => if compareLessons a b ≤ 0 then a :: b :: l else b :: insertLesson a l

/-- The call `allLessons.sort(compareLessons)`. -/
def sortLessons : List Lesson → List Lesson
  | [] => []
  | a :: l => insertLesson a (sortLessons l)

/-- The filter predicate `data => data && data.lessons`. -/
def isValidResult : Option Doc → Bool
  | some d => d.lessons.isSome
  | none => false

/-- The operand `d.lessons` of `concat` for a result that passed the filter;
a result that fails the filter never reaches it, and `concatLessons` below
keeps what JavaScript does with one. -/
def lessonsOf : Option Doc → List Lesson
  | some d => d.lessons.getD []
  | none => []

/-- The method `processData(results)`: installs the merged, sorted lesson list
and renders one lesson checkbox per lesson. -/
def processData (s : App) (results : List (Option Doc)) : App :=
  let validData := results.filter isValidResult
  let allLessons := validData.foldl (fun acc d => acc ++ lessonsOf d) []
  let sorted := sortLessons allLessons
  { s with data := sorted, lessonCbs := sorted.map (fun l => l.number) }

/-- What one `fetch(file).then(...).catch(...)` chain of `loadData` settles
from: a rejected fetch (or a body that does not parse), a response that is not
`ok`, or a response whose body parsed to a JSON value (`none` for a body that
is `null`). -/
inductive FetchOutcome where
  | networkError
  | notOk
  | body (json : Option Doc)
  deriving DecidableEq, Repr

/-- The value a fetch chain resolves to: the parsed body, or `null` after the
`catch`. -/
def settle : FetchOutcome → Option Doc
  | FetchOutcome.body json => json
  | _ => none

/-- The method `loadData()`: `dbData` is the global `DB_DATA` when it is
defined, `outcomes` the outcome of the fetch of each entry of `dbFiles`. -/
def loadData (s : App) (dbData : Option (Option Doc)) (outcomes : List FetchOutcome) : App :=
  match dbData with
  | some d => processData s [d]
  | none =>
    let results := outcomes.map settle
    processData s results

/-! ## Database loader with JavaScript's exceptions

The same two methods with the `TypeError` JavaScript raises when a property of
`null` or `undefined` is read, and with the `catch` of `loadData`. The array
`allLessons` may here hold `undefined` elements (`none`). -/

/-- An exception thrown by the code. -/
inductive JsError where
  | typeError
  deriving DecidableEq, Repr

/-- One pass of `d => { allLessons = allLessons.concat(d.lessons); }`:
reading `lessons` of `null` throws, and `concat` of the `undefined` of a
missing `lessons` field appends that `undefined`. -/
def concatLessons (allLessons : List (Option Lesson)) :
    Option Doc → Except JsError (List (Option Lesson))
  | none => Except.error JsError.typeError
  | some d =>
    match d.lessons with
    | some ls => Except.ok (allLessons ++ ls.map some)
    | none => Except.ok (allLessons ++ [none])

/-- The loop `validData.forEach(...)` from the accumulator `allLessons`. -/
def concatAll (allLessons : List (Option Lesson)) :
    List (Option Doc) → Except JsError (List (Option Lesson))
  | [] => Except.ok allLessons
  | d :: ds =>
    match concatLessons allLessons d with
    | Except.ok acc => concatAll acc ds
    | Except.error e => Except.error e

/-- The call `allLessons.sort(...)` on an array that may hold `undefined`:
the sort moves `undefined` elements behind the others without passing them to
the comparator. -/
def sortArray (allLessons : List (Option Lesson)) : List (Option Lesson) :=
  (sortLessons (allLessons.filterMap id)).map some
    ++ allLessons.filter (fun x => x.isNone)

/-- The loop of `populateLessonCheckboxes()` over `this.data.lessons`, giving
the rendered checkbox values: reading `name` of an `undefined` element
throws. -/
def populateLessonCheckboxes : List (Option Lesson) → Except JsError (List (Option Int))
  | [] => Except.ok []
  | none :: _ => Except.error JsError.typeError
  | some l :: rest =>
    match populateLessonCheckboxes rest with
    | Except.ok cbs => Except.ok (l.number :: cbs)
    | Except.error e => Except.error e

/-- The method `processData(results)` with its exceptions. -/
def tryProcessData (s : App) (results : List (Option Doc)) : Except JsError App :=
  let validData := results.filter isValidResult
  match concatAll [] validData with
  | Except.error e => Except.error e
  | Except.ok allLessons =>
    let sorted := sortArray allLessons
    match populateLessonCheckboxes sorted with
    | Except.error e => Except.error e
    | Except.ok cbs => Except.ok { s with data := sorted.filterMap id, lessonCbs := cbs }

/-- How `loadData()` ends: with the database installed, or in its `catch`
branch, which shows the load error panel. -/
inductive LoadOutcome where
  | installed (s : App)
  | loadError
  deriving DecidableEq, Repr

/-- The method `loadData()` with its `try` and `catch`. -/
def tryLoadData (s : App) (dbData : Option (Option Doc)) (outcomes : List FetchOutcome) :
    LoadOutcome :=
  let attempt :=
    match dbData with
    | some d => tryProcessData s [d]
    | none =>
      let results := outcomes.map settle
      tryProcessData s results
  match attempt with
  | Except.ok s => LoadOutcome.installed s
  | Except.error _ => LoadOutcome.loadError

/-! ## Word aggregator -/

/-- The lookup `this.data.lessons.find(l => l.number == lessonNum)`. -/
def findLesson (data : List Lesson) (lessonNum : JsNum) : Option Lesson :=
  data.find? (fun l => looseEq l.number lessonNum)

/-- The template literal of `updateCurrentWords` that builds `pageId`. -/
def aggregatePageId (lesson : Lesson) (p : Page) : String :=
  jsStr lesson.number ++ "-" ++ jsStr p.number

/-- The body of `updateCurrentWords` that computes `this.currentWords` from the
database and the two selection sets. -/
def computeWords (data : List Lesson) (selectedLessons : List JsNum)
    (selectedPages : List String) : List Word :=
  if selectedLessons.length > 0 ∧ selectedPages.length > 0 then
    selectedLessons.foldl (fun cur lessonNum =>
      match findLesson data lessonNum with
      | some lesson =>
        match lesson.pages with
        | some pages =>
          pages.foldl (fun cur p =>
            if aggregatePageId lesson p ∈ selectedPages then cur ++ p.words.getD [] else cur) cur
        | none => cur
      | none => cur) []
  else []

/-- The method `updateCurrentWords()`; the badge, the cards and the push to
`GameManager` all show `currentWords`. -/
def updateCurrentWords (s : App) : App :=
  { s with currentWords := computeWords s.data s.selectedLessons s.selectedPages }

/-! ## Selection store -/

/-- An entry of `availablePages`. -/
structure AvailablePage where
  lessonNum : Option Int
  pageNum : Option Int
  id : String
  deriving DecidableEq, Repr

/-- The template literal of `populatePageCheckboxes` that builds `id`. -/
def populatePageId (lesson : Lesson) (p : Page) : String :=
  jsStr lesson.number ++ "-" ++ jsStr p.number

/-- The array `availablePages` built by `populatePageCheckboxes`. -/
def availablePages (data : List Lesson) (selectedLessons : List JsNum) : List AvailablePage :=
  selectedLessons.foldl (fun acc lessonNum =>
    match findLesson data lessonNum with
    | some lesson =>
      match lesson.pages with
      | some pages =>
        pages.foldl (fun acc p =>
          acc ++ [{ lessonNum := lesson.number, pageNum := p.number,
                    id := populatePageId lesson p }]) acc
      | none => acc
    | none => acc) []

/-- The method `populatePageCheckboxes()`. -/
def populatePageCheckboxes (s : App) : App :=
  let s := { s with pageCbs := [], selectedPages := [] }
  let avail := availablePages s.data s.selectedLessons
  if avail.length = 0 then s
  else
    let s := avail.foldl (fun s p =>
      { s with pageCbs := s.pageCbs ++ [p.id], selectedPages := setAdd s.selectedPages p.id }) s
    updateCurrentWords s

/-- The input of `checkboxesLessons` a change event comes from. -/
inductive LessonTarget where
  | selectAllLessons
  | lessonCb (value : Option Int)
  deriving DecidableEq, Repr

/-- The input of `checkboxesPages` a change event comes from. -/
inductive PageTarget where
  | selectAllPages
  | pageCb (value : String)
  deriving DecidableEq, Repr

/-- The change listener of `checkboxesLessons`; `checked` is `e.target.checked`. -/
def lessonsChange (s : App) (target : LessonTarget) (checked : Bool) : App :=
  let s :=
    match target with
    | LessonTarget.selectAllLessons =>
      s.lessonCbs.foldl (fun s cb =>
        let val := parseIntValue cb
        if checked then { s with selectedLessons := setAdd s.selectedLessons val }
        else { s with selectedLessons := setDelete s.selectedLessons val }) s
    | LessonTarget.lessonCb value =>
      let val := parseIntValue value
      if checked then { s with selectedLessons := setAdd s.selectedLessons val }
      else { s with selectedLessons := setDelete s.selectedLessons val }
  populatePageCheckboxes s

/-- The change listener of `checkboxesPages`; `checked` is `e.target.checked`. -/
def pagesChange (s : App) (target : PageTarget) (checked : Bool) : App :=
  match target with
  | PageTarget.selectAllPages =>
    s.pageCbs.foldl (fun s cb =>
      if checked then { s with selectedPages := setAdd s.selectedPages cb }
      else { s with selectedPages := setDelete s.selectedPages cb }) s
  | PageTarget.pageCb value =>
    let s :=
      if checked then { s with selectedPages := setAdd s.selectedPages value }
      else { s with selectedPages := setDelete s.selectedPages value }
    updateCurrentWords s

/-- The fields set by the constructor; `data`, still `null` there, is read only
after `processData` has assigned it. -/
def newApp : App :=
  { data := [], currentWords := [], selectedLessons := [], selectedPages := [],
    lessonCbs := [], pageCbs := [] }

/-- A user action delivered to one of the two change listeners. -/
inductive Action where
  | lessons (target : LessonTarget) (checked : Bool)
  | pages (target : PageTarget) (checked : Bool)
  deriving DecidableEq, Repr

/-- One action processed to completion. -/
def step (s : App) : Action → App
  | Action.lessons target checked => lessonsChange s target checked
  | Action.pages target checked => pagesChange s target checked

/-- An action the rendered page can deliver: a lesson checkbox carries the
number of a rendered lesson, a page checkbox the value of a rendered page, and
the select-all page checkbox exists only next to rendered pages. -/
def Deliverable (s : App) : Action → Prop
  | Action.lessons LessonTarget.selectAllLessons _ => True
  | Action.lessons (LessonTarget.lessonCb value) _ => value ∈ s.lessonCbs
  | Action.pages PageTarget.selectAllPages _ => s.pageCbs ≠ []
  | Action.pages (PageTarget.pageCb value) _ => value ∈ s.pageCbs

instance (s : App) (a : Action) : Decidable (Deliverable s a) := by
  cases a with
  | lessons target checked => cases target <;> (unfold Deliverable; infer_instance)
  | pages target checked => cases target <;> (unfold Deliverable; infer_instance)

/-- The states the application goes through: the state after `init` has
loaded the database, and every state a deliverable action leads to. -/
inductive Reachable : App → Prop where
  | init (dbData : Option (Option Doc)) (outcomes : List FetchOutcome) :
      Reachable (loadData newApp dbData outcomes)
  | step {s : App} (a : Action) : Reachable s → Deliverable s a → Reachable (step s a)

/-- The state after `init` has loaded one document holding `lessons`. -/
def loaded (lessons : List Lesson) : App :=
  loadData newApp none [FetchOutcome.body (some { lessons := some lessons })]

/-- The run of a list of actions from a state. -/
def run (s : App) (actions : List Action) : App :=
  actions.foldl step s

/-! ## Sample data -/

/-- A lesson that carries only a number. -/
def lessonNumbered (n : Int) : Lesson := { number := some n, name := none, pages := none }

/-- The word whose German side is `g`. -/
def word (g : String) : Word :=
  { german := some g, czech := none, example_ := none, plural := none }

/-- Lesson 1 with page 1 holding A, B and page 2 holding C. -/
def lessonOne : Lesson :=
  { number := some 1, name := none,
    pages := some [{ number := some 1, words := some [word "A", word "B"] },
                   { number := some 2, words := some [word "C"] }] }

/-- Lesson 2 with pages 1 and 2, holding D and E. -/
def lessonTwo : Lesson :=
  { number := some 2, name := none,
    pages := some [{ number := some 1, words := some [word "D"] },
                   { number := some 2, words := some [word "E"] }] }

/-! ## Specification-side definitions -/

/-- The sort key of a lesson: its number, 0 when the number is missing. -/
def lessonKey (l : Lesson) : Int := numberOrZero l.number

/-- The concatenation, in input order, of the `lessons` arrays of the valid
results. -/
def validLessons (results : List (Option Doc)) : List Lesson :=
  ((results.filter isValidResult).map lessonsOf).flatten

/-- The first lesson of the database with the given number; `NaN` is the
number of no lesson. -/
def firstLessonNumbered (data : List Lesson) : JsNum → Option Lesson
  | JsNum.int n => data.find? (fun l => decide (l.number = some n))
  | JsNum.nan => none

/-- The PageId of the specification: the decimal lesson number, one `-` and
the decimal page number. -/
def pageId (lessonNumber pageNumber : Int) : String :=
  intToString lessonNumber ++ "-" ++ intToString pageNumber

/-- The word list in the specification's words: for each selected lesson
number in iteration order, the words of the selected pages of the first lesson
with that number, pages in stored order, words in page order. -/
def selectedWords (data : List Lesson) (selectedLessons : List JsNum)
    (selectedPages : List String) : List Word :=
  selectedLessons.flatMap (fun lessonNum =>
    match firstLessonNumbered data lessonNum with
    | none => []
    | some lesson =>
      ((lesson.pages.getD []).filter
          (fun p => decide (jsStr lesson.number ++ "-" ++ jsStr p.number ∈ selectedPages))).flatMap
        (fun p => p.words.getD []))

/-- The PageIds of all pages of the selected lessons found in the database. -/
def IsPageOfSelection (data : List Lesson) (selectedLessons : List JsNum) (id : String) : Prop :=
  ∃ lessonNum ∈ selectedLessons, ∃ lesson pages p,
    firstLessonNumbered data lessonNum = some lesson ∧ lesson.pages = some pages ∧ p ∈ pages ∧
      id = jsStr lesson.number ++ "-" ++ jsStr p.number

/-- The value of a decimal digit character. -/
def digitValue (c : Char) : Nat := c.toNat - 48

/-- The number a list of decimal digit characters denotes. -/
def readDigits (cs : List Char) : Nat :=
  cs.foldl (fun acc c => 10 * acc + digitValue c) 0

/-- The decimal digit characters. -/
def decimalDigits : List Char := ['0', '1', '2', '3', '4', '5', '6', '7', '8', '9']

/-- The characters of a rendered `number`: an optional minus sign in front of
a non-empty body without a minus sign. -/
def IsRendered (r : List Char) : Prop :=
  ∃ (neg : Bool) (body : List Char),
    r = (if neg then ['-'] else []) ++ body ∧ '-' ∉ body ∧ body ≠ []

/-- The rendered page checkboxes are the pages of the selected lessons, in
the order `populatePageCheckboxes` enumerates them. -/
def PagesRendered (s : App) : Prop :=
  s.pageCbs = (availablePages s.data s.selectedLessons).map (fun p => p.id)

/-! ## Loader: the merged list is the stable sorted concatenation -/

theorem foldl_concat_eq (ds : List (Option Doc)) (acc : List Lesson) :
    ds.foldl (fun acc d => acc ++ lessonsOf d) acc = acc ++ (ds.map lessonsOf).flatten := by
  induction ds generalizing acc with
  | nil => simp
  | cons d ds ih => simp [ih, List.append_assoc]

theorem processData_data (s : App) (results : List (Option Doc)) :
    (processData s results).data = sortLessons (validLessons results) := by
  simp [processData, validLessons, foldl_concat_eq]

theorem insertLesson_perm (a : Lesson) (l : List Lesson) :
    (insertLesson a l).Perm (a :: l) := by
  induction l with
  | nil => simp [insertLesson]
  | cons b l ih =>
    unfold insertLesson
    split
    · exact List.Perm.refl _
    · exact (List.Perm.cons b ih).trans (List.Perm.swap a b l)

theorem sortLessons_perm (l : List Lesson) : (sortLessons l).Perm l := by
  induction l with
  | nil => exact List.Perm.refl _
  | cons a l ih =>
    exact (insertLesson_perm a (sortLessons l)).trans (List.Perm.cons a ih)

theorem insertLesson_sorted (a : Lesson) (l : List Lesson)
    (h : l.Pairwise (fun x y => lessonKey x ≤ lessonKey y)) :
    (insertLesson a l).Pairwise (fun x y => lessonKey x ≤ lessonKey y) := by
  induction l with
  | nil => simp [insertLesson]
  | cons b l ih =>
    have hb := List.pairwise_cons.1 h
    unfold insertLesson
    split
    · rename_i hle
      have hab : lessonKey a ≤ lessonKey b := by
        simp only [compareLessons] at hle
        simp only [lessonKey]
        omega
      refine List.pairwise_cons.2 ⟨?_, h⟩
      intro c hc
      rcases List.mem_cons.1 hc with rfl | hc
      · exact hab
      · exact le_trans hab (hb.1 c hc)
    · rename_i hle
      have hba : lessonKey b ≤ lessonKey a := by
        simp only [compareLessons] at hle
        simp only [lessonKey]
        omega
      refine List.pairwise_cons.2 ⟨?_, ih hb.2⟩
      intro c hc
      rcases List.mem_cons.1 ((insertLesson_perm a l).mem_iff.1 hc) with rfl | hc
      · exact hba
      · exact hb.1 c hc

theorem sortLessons_sorted (l : List Lesson) :
    (sortLessons l).Pairwise (fun x y => lessonKey x ≤ lessonKey y) := by
  induction l with
  | nil => exact List.Pairwise.nil
  | cons a l ih => exact insertLesson_sorted a (sortLessons l) ih

theorem insertLesson_filter (k : Int) (a : Lesson) (l : List Lesson) :
    (insertLesson a l).filter (fun x => decide (lessonKey x = k))
      = (a :: l).filter (fun x => decide (lessonKey x = k)) := by
  induction l with
  | nil => simp [insertLesson]
  | cons b l ih =>
    unfold insertLesson
    split
    · rfl
    · rename_i hle
      have hne : lessonKey a ≠ lessonKey b := by
        simp only [compareLessons] at hle
        simp only [lessonKey]
        omega
      rw [List.filter_cons, ih]
      by_cases ha : lessonKey a = k
      · have hb : lessonKey b ≠ k := fun hb => hne (ha.trans hb.symm)
        simp [List.filter_cons, ha, hb]
      · simp [List.filter_cons, ha]

theorem sortLessons_filter (k : Int) (l : List Lesson) :
    (sortLessons l).filter (fun x => decide (lessonKey x = k))
      = l.filter (fun x => decide (lessonKey x = k)) := by
  induction l with
  | nil => rfl
  | cons a l ih =>
    show (insertLesson a (sortLessons l)).filter _ = _
    rw [insertLesson_filter, List.filter_cons, List.filter_cons, ih]

/-- C1: the lesson list installed by `processData` is sorted ascending by
lesson number (a missing number counting as 0), is a permutation of the
concatenation in input order of the `lessons` arrays of the valid results, and
keeps the input order among lessons of equal number; documents with lessons
numbered 5, 1, 3 and 2, 4 merge to 1, 2, 3, 4, 5 in either document order. -/
theorem processData_sorted_stable_merge (s : App) (results : List (Option Doc)) :
    (processData s results).data.Pairwise (fun x y => lessonKey x ≤ lessonKey y)
    ∧ (processData s results).data.Perm (validLessons results)
    ∧ (∀ k : Int, (processData s results).data.filter (fun x => decide (lessonKey x = k))
        = (validLessons results).filter (fun x => decide (lessonKey x = k)))
    ∧ (processData s [some ⟨some ([5, 1, 3].map lessonNumbered)⟩,
          some ⟨some ([2, 4].map lessonNumbered)⟩]).data = [1, 2, 3, 4, 5].map lessonNumbered
    ∧ (processData s [some ⟨some ([2, 4].map lessonNumbered)⟩,
          some ⟨some ([5, 1, 3].map lessonNumbered)⟩]).data = [1, 2, 3, 4, 5].map lessonNumbered := by
  refine ⟨?_, ?_, ?_, ?_, ?_⟩
  · rw [processData_data]; exact sortLessons_sorted _
  · rw [processData_data]; exact sortLessons_perm _
  · intro k; rw [processData_data]; exact sortLessons_filter k _
  · rw [processData_data]; decide
  · rw [processData_data]; decide

theorem isValidResult_eq_false (r : Option Doc) :
    isValidResult r = false ↔ r = none ∨ ∃ d, r = some d ∧ d.lessons = none := by
  cases r with
  | none => simp [isValidResult]
  | some d => cases h : d.lessons <;> simp [isValidResult, h]

theorem validLessons_append (xs ys : List (Option Doc)) :
    validLessons (xs ++ ys) = validLessons xs ++ validLessons ys := by
  simp [validLessons]

theorem validLessons_invalid (r : Option Doc) (h : isValidResult r = false) :
    validLessons [r] = [] := by
  simp [validLessons, List.filter_cons, h]

theorem mem_validLessons (results : List (Option Doc)) (l : Lesson) :
    l ∈ validLessons results ↔ ∃ d ls, some d ∈ results ∧ d.lessons = some ls ∧ l ∈ ls := by
  simp only [validLessons, List.mem_flatten, List.mem_map, List.mem_filter]
  constructor
  · rintro ⟨ls, ⟨r, ⟨hr, hv⟩, rfl⟩, hl⟩
    cases r with
    | none => simp [isValidResult] at hv
    | some d =>
      cases hd : d.lessons with
      | none => simp [isValidResult, hd] at hv
      | some ls' => exact ⟨d, ls', hr, hd, by simpa [lessonsOf, hd] using hl⟩
  · rintro ⟨d, ls, hr, hd, hl⟩
    exact ⟨ls, ⟨some d, ⟨hr, by simp [isValidResult, hd]⟩, by simp [lessonsOf, hd]⟩, hl⟩

theorem concatAll_valid (ds : List (Option Doc)) (acc : List Lesson)
    (h : ∀ d ∈ ds, isValidResult d = true) :
    concatAll (acc.map some) ds
      = Except.ok ((acc ++ (ds.map lessonsOf).flatten).map some) := by
  induction ds generalizing acc with
  | nil => simp [concatAll]
  | cons d ds ih =>
    have hd : isValidResult d = true := h d (List.mem_cons_self _ _)
    have hds : ∀ d' ∈ ds, isValidResult d' = true :=
      fun d' hd' => h d' (List.mem_cons_of_mem _ hd')
    cases d with
    | none => simp [isValidResult] at hd
    | some doc =>
      cases hl : doc.lessons with
      | none => simp [isValidResult, hl] at hd
      | some ls =>
        have hstep : concatLessons (acc.map some) (some doc)
            = Except.ok ((acc ++ ls).map some) := by
          simp [concatLessons, hl]
        simp only [concatAll, hstep]
        rw [ih (acc ++ ls) hds]
        simp [lessonsOf, hl, List.append_assoc]

theorem sortArray_map_some (l : List Lesson) :
    sortArray (l.map some) = (sortLessons l).map some := by
  have h1 : (l.map some).filterMap id = l := by
    induction l with
    | nil => rfl
    | cons a l ih => simp [List.filterMap_cons, ih]
  have h2 : (l.map some).filter (fun x => x.isNone) = [] := by
    induction l with
    | nil => rfl
    | cons a l ih => simp [List.filter_cons, ih]
  simp only [sortArray, h1, h2, List.append_nil]

theorem populateLessonCheckboxes_map_some (l : List Lesson) :
    populateLessonCheckboxes (l.map some) = Except.ok (l.map (fun x => x.number)) := by
  induction l with
  | nil => rfl
  | cons a l ih => simp only [List.map_cons, populateLessonCheckboxes, ih]

theorem filterMap_id_map_some (l : List Lesson) : (l.map some).filterMap id = l := by
  induction l with
  | nil => rfl
  | cons a l ih => simp [List.filterMap_cons, ih]

theorem tryProcessData_ok (s : App) (results : List (Option Doc)) :
    tryProcessData s results = Except.ok (processData s results) := by
  have hvalid : ∀ d ∈ results.filter isValidResult, isValidResult d = true :=
    fun d hd => (List.mem_filter.1 hd).2
  have hc := concatAll_valid (results.filter isValidResult) [] hvalid
  simp only [List.map_nil, List.nil_append] at hc
  simp only [tryProcessData, hc, sortArray_map_some, populateLessonCheckboxes_map_some,
    filterMap_id_map_some, processData, foldl_concat_eq, List.nil_append]

theorem tryLoadData_installed (s : App) (dbData : Option (Option Doc))
    (outcomes : List FetchOutcome) :
    tryLoadData s dbData outcomes = LoadOutcome.installed (loadData s dbData outcomes) := by
  cases dbData with
  | none => simp only [tryLoadData, loadData, tryProcessData_ok]
  | some d => simp only [tryLoadData, loadData, tryProcessData_ok]

/-- C2: a result that is null or has no `lessons` field contributes nothing
and does not make the load fail. `processData` throws on no list of results,
and `loadData` never ends in its `catch` branch: both install the database
that the total `processData` computes, where an unfiltered null would throw in
the concat loop and an unfiltered document without `lessons` in the rendering
of the lesson checkboxes. The merged list holds exactly the lessons of the
valid results, dropping an invalid result from the input changes nothing,
results that are all invalid give the empty list, and a load in which one of
two fetches fails installs the sorted lessons of the other source. -/
theorem processData_skips_invalid (s : App) (results : List (Option Doc)) :
    tryProcessData s results = Except.ok (processData s results)
    ∧ (∀ dbData outcomes,
        tryLoadData s dbData outcomes = LoadOutcome.installed (loadData s dbData outcomes))
    ∧ (∀ l, l ∈ (processData s results).data ↔
        ∃ d ls, some d ∈ results ∧ d.lessons = some ls ∧ l ∈ ls)
    ∧ (∀ pre post r, results = pre ++ r :: post →
        (r = none ∨ ∃ d, r = some d ∧ d.lessons = none) →
        processData s results = processData s (pre ++ post))
    ∧ ((∀ r ∈ results, r = none ∨ ∃ d, r = some d ∧ d.lessons = none) →
        (processData s results).data = []
        ∧ tryProcessData s results = Except.ok { s with data := [], lessonCbs := [] })
    ∧ (∀ d ls, d.lessons = some ls →
        (loadData s none [FetchOutcome.networkError, FetchOutcome.body (some d)]).data
            = sortLessons ls
        ∧ (loadData s none [FetchOutcome.body (some d), FetchOutcome.notOk]).data
            = sortLessons ls)
    ∧ (concatAll [] [none] = Except.error JsError.typeError
        ∧ concatAll [] [some { lessons := none }] = Except.ok [none]
        ∧ populateLessonCheckboxes (sortArray [none]) = Except.error JsError.typeError) := by
  have hfold : ∀ rs : List (Option Doc),
      (rs.filter isValidResult).foldl (fun acc d => acc ++ lessonsOf d) []
        = validLessons rs := by
    intro rs; simp [validLessons, foldl_concat_eq]
  refine ⟨tryProcessData_ok s results, tryLoadData_installed s, ?_, ?_, ?_, ?_, ?_⟩
  · intro l
    rw [processData_data, (sortLessons_perm _).mem_iff, mem_validLessons]
  · intro pre post r hres hr
    have hv : isValidResult r = false := (isValidResult_eq_false r).2 hr
    have hvl : validLessons results = validLessons (pre ++ post) := by
      rw [hres, validLessons_append, validLessons_append,
        show r :: post = [r] ++ post from rfl, validLessons_append, validLessons_invalid r hv]
      rfl
    simp only [processData, hfold, hvl]
  · intro hall
    have hnil : validLessons results = [] := by
      have hf : results.filter isValidResult = [] := by
        rw [List.filter_eq_nil_iff]
        intro r hr
        simp [(isValidResult_eq_false r).2 (hall r hr)]
      simp [validLessons, hf]
    constructor
    · rw [processData_data, hnil]; rfl
    · rw [tryProcessData_ok]
      simp only [processData, hfold, hnil]
      rfl
  · intro d ls hd
    constructor
    · simp [loadData, settle, processData_data, validLessons, isValidResult, lessonsOf, hd]
    · simp [loadData, settle, processData_data, validLessons, isValidResult, lessonsOf, hd]
  · exact ⟨rfl, rfl, rfl⟩

/-- C2 at concrete inputs: a failed fetch in front of a document with lessons
5 and 1, and a failed fetch next to a document without `lessons`. -/
theorem processData_skips_invalid_witness :
    (processData newApp [none, some ⟨some [lessonNumbered 5, lessonNumbered 1]⟩]
        = processData newApp ([] ++ [some ⟨some [lessonNumbered 5, lessonNumbered 1]⟩]))
    ∧ (processData newApp [none, some ⟨none⟩]).data = []
    ∧ tryProcessData newApp [none, some ⟨none⟩] = Except.ok newApp
    ∧ tryLoadData newApp none [FetchOutcome.networkError,
          FetchOutcome.body (some ⟨some [lessonNumbered 5, lessonNumbered 1]⟩)]
        = LoadOutcome.installed { newApp with
            data := [lessonNumbered 1, lessonNumbered 5], lessonCbs := [some 1, some 5] } :=
  have hinvalid : ∀ r ∈ [none, some (⟨none⟩ : Doc)],
      r = none ∨ ∃ d : Doc, r = some d ∧ d.lessons = none := by
    intro r hr
    simp only [List.mem_cons, List.mem_singleton, List.not_mem_nil, or_false] at hr
    rcases hr with rfl | rfl
    · exact Or.inl rfl
    · exact Or.inr ⟨⟨none⟩, rfl, rfl⟩
  ⟨(processData_skips_invalid newApp
      [none, some ⟨some [lessonNumbered 5, lessonNumbered 1]⟩]).2.2.2.1 [] _ none rfl
        (Or.inl rfl),
   ((processData_skips_invalid newApp [none, some ⟨none⟩]).2.2.2.2.1 hinvalid).1,
   ((processData_skips_invalid newApp [none, some ⟨none⟩]).2.2.2.2.1 hinvalid).2,
   ((processData_skips_invalid newApp []).2.1 none [FetchOutcome.networkError,
      FetchOutcome.body (some ⟨some [lessonNumbered 5, lessonNumbered 1]⟩)]).trans
        (by decide)⟩

/-! ## Word aggregator -/

theorem findLesson_eq (data : List Lesson) (lessonNum : JsNum) :
    findLesson data lessonNum = firstLessonNumbered data lessonNum := by
  cases lessonNum with
  | nan =>
    simp only [findLesson, firstLessonNumbered]
    rw [List.find?_eq_none]
    intro l _
    cases l.number <;> simp [looseEq]
  | int n =>
    simp only [findLesson, firstLessonNumbered]
    congr 1
    funext l
    cases h : l.number <;> simp [looseEq]

theorem foldl_pages_eq (sp : List String) (lesson : Lesson) (pages : List Page)
    (cur : List Word) :
    pages.foldl (fun cur p =>
        if aggregatePageId lesson p ∈ sp then cur ++ p.words.getD [] else cur) cur
      = cur ++ (pages.filter (fun p => decide (aggregatePageId lesson p ∈ sp))).flatMap
          (fun p => p.words.getD []) := by
  induction pages generalizing cur with
  | nil => simp
  | cons p pages ih =>
    rw [List.foldl_cons, ih]
    by_cases h : aggregatePageId lesson p ∈ sp
    · simp [List.filter_cons, h, List.append_assoc]
    · simp [List.filter_cons, h]

/-- The words one selected lesson number contributes. -/
theorem foldl_lessons_eq (data : List Lesson) (sp : List String) (sl : List JsNum)
    (cur : List Word) :
    sl.foldl (fun cur lessonNum =>
      match findLesson data lessonNum with
      | some lesson =>
        match lesson.pages with
        | some pages =>
          pages.foldl (fun cur p =>
            if aggregatePageId lesson p ∈ sp then cur ++ p.words.getD [] else cur) cur
        | none => cur
      | none => cur) cur
      = cur ++ selectedWords data sl sp := by
  induction sl generalizing cur with
  | nil => simp [selectedWords]
  | cons n sl ih =>
    rw [List.foldl_cons, ih]
    simp only [selectedWords, List.flatMap_cons, ← findLesson_eq]
    cases hf : findLesson data n with
    | none => simp
    | some lesson =>
      cases hp : lesson.pages with
      | none => simp [hp]
      | some pages =>
        simp only [hp, foldl_pages_eq, Option.getD_some, List.append_assoc]
        rfl

theorem selectedWords_nil_pages (data : List Lesson) (sl : List JsNum) :
    selectedWords data sl [] = [] := by
  simp only [selectedWords, List.flatMap_eq_nil_iff]
  intro n _
  cases firstLessonNumbered data n <;> simp

theorem computeWords_eq (data : List Lesson) (sl : List JsNum) (sp : List String) :
    computeWords data sl sp = selectedWords data sl sp := by
  unfold computeWords
  split
  · rw [foldl_lessons_eq]; rfl
  · rename_i h
    have h' : sl = [] ∨ sp = [] := by
      by_contra hc
      push_neg at hc
      exact h ⟨List.length_pos.2 hc.1, List.length_pos.2 hc.2⟩
    rcases h' with rfl | rfl
    · rfl
    · exact (selectedWords_nil_pages data sl).symm

/-- C3: for every `selectedLessons`, the non-empty ones in particular, and
every `selectedPages`, `computeWords` is the concatenation over the selected
lesson numbers, in iteration order, of the words of the selected pages of the
first database lesson with that number, pages in stored order and words in
page order; unknown lesson numbers, lessons without pages and pages without
words add nothing. Lesson 1 with pages 1 = A, B and 2 = C gives A, B, C with
both pages selected and C with page 1 deselected. -/
theorem computeWords_selected_pages_in_order (data : List Lesson) (selectedLessons : List JsNum)
    (selectedPages : List String) :
    computeWords data selectedLessons selectedPages
        = selectedWords data selectedLessons selectedPages
    ∧ computeWords [lessonOne] [JsNum.int 1] ["1-1", "1-2"] = [word "A", word "B", word "C"]
    ∧ computeWords [lessonOne] [JsNum.int 1] ["1-2"] = [word "C"] :=
  ⟨computeWords_eq _ _ _, by decide, by decide⟩

/-- C5: `computeWords` returns the empty list when `selectedLessons` is empty
and when `selectedPages` is empty, whatever the database. -/
theorem computeWords_empty_selection (data : List Lesson) (selectedLessons : List JsNum)
    (selectedPages : List String) :
    computeWords data [] selectedPages = []
    ∧ computeWords data selectedLessons [] = []
    ∧ computeWords [lessonOne] [] ["1-1"] = []
    ∧ computeWords [lessonOne] [JsNum.int 1] [] = [] := by
  refine ⟨?_, ?_, ?_, ?_⟩ <;> simp [computeWords]

/-! ## Selection store: the rebuild of the page selection -/

theorem mem_foldl_setAdd (ids acc : List String) (x : String) :
    x ∈ ids.foldl setAdd acc ↔ x ∈ acc ∨ x ∈ ids := by
  induction ids generalizing acc with
  | nil => simp
  | cons i ids ih =>
    rw [List.foldl_cons, ih]
    unfold setAdd
    split
    · rename_i hi
      constructor
      · rintro (h | h)
        · exact Or.inl h
        · exact Or.inr (List.mem_cons_of_mem _ h)
      · rintro (h | h)
        · exact Or.inl h
        · rcases List.mem_cons.1 h with rfl | h
          · exact Or.inl hi
          · exact Or.inr h
    · simp only [List.mem_append, List.mem_singleton, List.mem_cons]
      tauto

theorem nodup_foldl_setAdd (ids acc : List String) (h : acc.Nodup) :
    (ids.foldl setAdd acc).Nodup := by
  induction ids generalizing acc with
  | nil => exact h
  | cons i ids ih =>
    rw [List.foldl_cons]
    apply ih
    unfold setAdd
    split
    · exact h
    · rename_i hi
      exact List.Nodup.append h (List.nodup_singleton i) (by
        intro a ha hb
        rw [List.mem_singleton] at hb
        exact hi (hb ▸ ha))

theorem populate_loop (avail : List AvailablePage) (s : App) :
    avail.foldl (fun s p =>
        { s with pageCbs := s.pageCbs ++ [p.id], selectedPages := setAdd s.selectedPages p.id }) s
      = { s with pageCbs := s.pageCbs ++ avail.map (fun p => p.id),
                 selectedPages := (avail.map (fun p => p.id)).foldl setAdd s.selectedPages } := by
  induction avail generalizing s with
  | nil => simp
  | cons p avail ih => simp [ih, List.append_assoc]

theorem populatePageCheckboxes_selectedPages (s : App) :
    (populatePageCheckboxes s).selectedPages
      = ((availablePages s.data s.selectedLessons).map (fun p => p.id)).foldl setAdd [] := by
  unfold populatePageCheckboxes
  simp only
  split
  · rename_i h
    rw [List.length_eq_zero.1 h]; rfl
  · rw [populate_loop]; rfl

theorem populatePageCheckboxes_pageCbs (s : App) :
    (populatePageCheckboxes s).pageCbs
      = (availablePages s.data s.selectedLessons).map (fun p => p.id) := by
  unfold populatePageCheckboxes
  simp only
  split
  · rename_i h
    rw [List.length_eq_zero.1 h]; rfl
  · rw [populate_loop]; simp [updateCurrentWords]

theorem populatePageCheckboxes_fixed (s : App) :
    (populatePageCheckboxes s).data = s.data
    ∧ (populatePageCheckboxes s).selectedLessons = s.selectedLessons
    ∧ (populatePageCheckboxes s).lessonCbs = s.lessonCbs := by
  unfold populatePageCheckboxes
  simp only
  split
  · exact ⟨rfl, rfl, rfl⟩
  · rw [populate_loop]; exact ⟨rfl, rfl, rfl⟩

theorem foldl_available_pages (lesson : Lesson) (pages : List Page) (acc : List AvailablePage) :
    pages.foldl (fun acc p =>
        acc ++ [{ lessonNum := lesson.number, pageNum := p.number,
                  id := populatePageId lesson p }]) acc
      = acc ++ pages.map (fun p =>
          { lessonNum := lesson.number, pageNum := p.number, id := populatePageId lesson p }) := by
  induction pages generalizing acc with
  | nil => simp
  | cons p pages ih => simp [ih, List.append_assoc]

theorem mem_availablePages_ids (data : List Lesson) (sl : List JsNum) (id : String) :
    id ∈ (availablePages data sl).map (fun p => p.id) ↔ IsPageOfSelection data sl id := by
  have key : ∀ (sl : List JsNum) (acc : List AvailablePage),
      (id ∈ (sl.foldl (fun acc lessonNum =>
        match findLesson data lessonNum with
        | some lesson =>
          match lesson.pages with
          | some pages =>
            pages.foldl (fun acc p =>
              acc ++ [{ lessonNum := lesson.number, pageNum := p.number,
                        id := populatePageId lesson p }]) acc
          | none => acc
        | none => acc) acc).map (fun p => p.id))
        ↔ (id ∈ acc.map (fun p => p.id) ∨ IsPageOfSelection data sl id) := by
    intro sl
    induction sl with
    | nil => intro acc; simp [IsPageOfSelection]
    | cons n sl ih =>
      intro acc
      rw [List.foldl_cons, ih]
      have hsplit : IsPageOfSelection data (n :: sl) id ↔
          ((∃ lesson pages p, firstLessonNumbered data n = some lesson ∧
              lesson.pages = some pages ∧ p ∈ pages ∧
              id = jsStr lesson.number ++ "-" ++ jsStr p.number)
            ∨ IsPageOfSelection data sl id) := by
        simp only [IsPageOfSelection, List.mem_cons, exists_eq_or_imp]
      rw [hsplit, ← findLesson_eq]
      cases hf : findLesson data n with
      | none =>
        simp only [Option.some.injEq]
        constructor
        · rintro (h | h)
          · exact Or.inl h
          · exact Or.inr (Or.inr h)
        · rintro (h | ⟨_, _, _, hc, _⟩ | h)
          · exact Or.inl h
          · exact absurd hc (by simp)
          · exact Or.inr h
      | some lesson =>
        cases hp : lesson.pages with
        | none =>
          simp only [hp]
          constructor
          · rintro (h | h)
            · exact Or.inl h
            · exact Or.inr (Or.inr h)
          · rintro (h | ⟨lesson', _, _, hc, hc', _⟩ | h)
            · exact Or.inl h
            · cases hc; rw [hp] at hc'; exact absurd hc' (by simp)
            · exact Or.inr h
        | some pages =>
          simp only [hp]
          rw [foldl_available_pages, List.map_append, List.mem_append]
          have hmem : id ∈ (pages.map (fun p : Page =>
                ({ lessonNum := lesson.number, pageNum := p.number,
                   id := populatePageId lesson p } : AvailablePage))).map (fun p => p.id)
              ↔ ∃ p ∈ pages, id = jsStr lesson.number ++ "-" ++ jsStr p.number := by
            rw [List.map_map, List.mem_map]
            constructor
            · rintro ⟨p, hp', rfl⟩; exact ⟨p, hp', rfl⟩
            · rintro ⟨p, hp', rfl⟩; exact ⟨p, hp', rfl⟩
          rw [hmem]
          constructor
          · rintro ((h | ⟨p, hp', hid⟩) | h)
            · exact Or.inl h
            · exact Or.inr (Or.inl ⟨lesson, pages, p, rfl, hp, hp', hid⟩)
            · exact Or.inr (Or.inr h)
          · rintro (h | ⟨lesson', pages', p, hc, hc', hp', hid⟩ | h)
            · exact Or.inl (Or.inl h)
            · cases hc
              rw [hp] at hc'
              cases hc'
              exact Or.inl (Or.inr ⟨p, hp', hid⟩)
            · exact Or.inr h
  have := key sl []
  simpa [availablePages] using this

/-- C4: after `populatePageCheckboxes` the set `selectedPages` holds exactly
the PageIds of all pages of the lessons that are selected and found in the
database, each once; the prior page selection has no influence on it; it is
empty when no lesson is selected. With lesson 2 selected and `1-1` selected
before, the result is `2-1`, `2-2`. -/
theorem populatePageCheckboxes_rebuilds_selectedPages (s : App) :
    (∀ id, id ∈ (populatePageCheckboxes s).selectedPages
        ↔ IsPageOfSelection s.data s.selectedLessons id)
    ∧ (populatePageCheckboxes s).selectedPages.Nodup
    ∧ (∀ prior, (populatePageCheckboxes { s with selectedPages := prior }).selectedPages
        = (populatePageCheckboxes s).selectedPages)
    ∧ (populatePageCheckboxes { s with selectedLessons := [] }).selectedPages = []
    ∧ (populatePageCheckboxes { newApp with
          data := [lessonOne, lessonTwo], selectedLessons := [JsNum.int 2],
          selectedPages := ["1-1"] }).selectedPages = ["2-1", "2-2"] := by
  refine ⟨?_, ?_, ?_, ?_, ?_⟩
  · intro id
    rw [populatePageCheckboxes_selectedPages, mem_foldl_setAdd, mem_availablePages_ids]
    simp
  · rw [populatePageCheckboxes_selectedPages]
    exact nodup_foldl_setAdd _ _ List.nodup_nil
  · intro prior
    rw [populatePageCheckboxes_selectedPages, populatePageCheckboxes_selectedPages]
  · rw [populatePageCheckboxes_selectedPages]; rfl
  · decide

/-! ## Order of the aggregated words -/

theorem selectedWords_congr (data : List Lesson) (sl : List JsNum) (sp1 sp2 : List String)
    (h : ∀ id, id ∈ sp1 ↔ id ∈ sp2) :
    selectedWords data sl sp1 = selectedWords data sl sp2 := by
  have hdec : ∀ id : String, decide (id ∈ sp1) = decide (id ∈ sp2) := by
    intro id
    simp only [h id]
  simp only [selectedWords, hdec]

theorem selectedWords_append (data : List Lesson) (sl1 sl2 : List JsNum) (sp : List String) :
    selectedWords data (sl1 ++ sl2) sp = selectedWords data sl1 sp ++ selectedWords data sl2 sp := by
  simp [selectedWords, List.flatMap_append]

/-- C6, refuted as stated: lessons 1 and 2 selected in the order 2, 1 and in
the order 1, 2 are the same set of lesson numbers with the same PageIds, yet
the word lists differ, and in the first the words of lesson 2 precede those of
lesson 1, which comes earlier in the database. Clicking lesson 2 and then
lesson 1 reaches the first state. -/
theorem computeWords_follows_click_order :
    (∀ n : JsNum, n ∈ [JsNum.int 2, JsNum.int 1] ↔ n ∈ [JsNum.int 1, JsNum.int 2])
    ∧ computeWords [lessonOne, lessonTwo] [JsNum.int 2, JsNum.int 1]
          ["2-1", "2-2", "1-1", "1-2"]
        = [word "D", word "E", word "A", word "B", word "C"]
    ∧ computeWords [lessonOne, lessonTwo] [JsNum.int 1, JsNum.int 2]
          ["2-1", "2-2", "1-1", "1-2"]
        = [word "A", word "B", word "C", word "D", word "E"]
    ∧ (run (loaded [lessonOne, lessonTwo])
          [Action.lessons (LessonTarget.lessonCb (some 2)) true,
           Action.lessons (LessonTarget.lessonCb (some 1)) true]).currentWords
        = [word "D", word "E", word "A", word "B", word "C"]
    ∧ ¬ (∀ (data : List Lesson) (sl1 sl2 : List JsNum) (sp1 sp2 : List String),
          (∀ n, n ∈ sl1 ↔ n ∈ sl2) → (∀ id, id ∈ sp1 ↔ id ∈ sp2) →
          computeWords data sl1 sp1 = computeWords data sl2 sp2) := by
  have hmem : ∀ n : JsNum, n ∈ [JsNum.int 2, JsNum.int 1] ↔ n ∈ [JsNum.int 1, JsNum.int 2] := by
    intro n
    simp only [List.mem_cons, List.mem_singleton, List.not_mem_nil, or_false]
    exact Or.comm
  refine ⟨hmem, by decide, by decide, by decide, ?_⟩
  intro hall
  have h := hall [lessonOne, lessonTwo] [JsNum.int 2, JsNum.int 1] [JsNum.int 1, JsNum.int 2]
    ["2-1", "2-2", "1-1", "1-2"] ["2-1", "2-2", "1-1", "1-2"] hmem (fun _ => Iff.rfl)
  revert h
  decide

/-- C6, amended: the word list is a function of the database, of the
iteration order of `selectedLessons` and of the membership of `selectedPages`,
ordered by the iteration order of the selected lessons, then page order, then
word order within the page. Two page selections with the same PageIds give the
same word list for the same sequence of selected lessons; that list is the
concatenation, lesson by lesson in iteration order, of the words of the
selected pages of the lesson in stored page order, each page's words in page
order; one selected lesson found in the database contributes exactly that; and
the words of the lessons selected earlier precede those of the lessons
selected later. -/
theorem computeWords_ordered_by_selection (data : List Lesson) (selectedLessons : List JsNum)
    (sp1 sp2 : List String) (h : ∀ id, id ∈ sp1 ↔ id ∈ sp2) :
    computeWords data selectedLessons sp1 = computeWords data selectedLessons sp2
    ∧ computeWords data selectedLessons sp1 = selectedWords data selectedLessons sp1
    ∧ (∀ lessonNum lesson pages, firstLessonNumbered data lessonNum = some lesson →
        lesson.pages = some pages →
        computeWords data [lessonNum] sp1
          = (pages.filter (fun p =>
                decide (jsStr lesson.number ++ "-" ++ jsStr p.number ∈ sp1))).flatMap
              (fun p => p.words.getD []))
    ∧ (∀ sl1 sl2, selectedLessons = sl1 ++ sl2 →
        computeWords data selectedLessons sp1
          = computeWords data sl1 sp1 ++ computeWords data sl2 sp1) := by
  refine ⟨?_, computeWords_eq _ _ _, ?_, ?_⟩
  · rw [computeWords_eq, computeWords_eq]; exact selectedWords_congr data _ sp1 sp2 h
  · intro lessonNum lesson pages hf hp
    rw [computeWords_eq]
    simp only [selectedWords, List.flatMap_cons, List.flatMap_nil, List.append_nil, hf, hp,
      Option.getD_some]
  · intro sl1 sl2 hsl
    rw [computeWords_eq, computeWords_eq, computeWords_eq, hsl]
    exact selectedWords_append data sl1 sl2 sp1

/-- C6 amended, at lessons 2 then 1 with the page set listed in two orders:
the words of lesson 2, selected first, come first, and within lesson 1 the
pages and their words keep the stored order. -/
theorem computeWords_ordered_by_selection_witness :
    computeWords [lessonOne, lessonTwo] [JsNum.int 2, JsNum.int 1] ["2-1", "1-2", "1-1"]
      = computeWords [lessonOne, lessonTwo] [JsNum.int 2, JsNum.int 1] ["1-1", "1-2", "2-1"]
    ∧ computeWords [lessonOne, lessonTwo] [JsNum.int 2, JsNum.int 1] ["1-1", "1-2", "2-1"]
      = [word "D", word "A", word "B", word "C"] :=
  ⟨(computeWords_ordered_by_selection [lessonOne, lessonTwo] [JsNum.int 2, JsNum.int 1]
    ["2-1", "1-2", "1-1"] ["1-1", "1-2", "2-1"] (by
      intro id
      simp only [List.mem_cons, List.mem_singleton, List.not_mem_nil, or_false]
      tauto)).1, by decide⟩

/-! ## Recomputation after a mutation -/

/-- A single page toggle recomputes the word list. -/
theorem pagesChange_pageCb_recomputes (s : App) (value : String) (checked : Bool) :
    (pagesChange s (PageTarget.pageCb value) checked).currentWords
      = computeWords (pagesChange s (PageTarget.pageCb value) checked).data
          (pagesChange s (PageTarget.pageCb value) checked).selectedLessons
          (pagesChange s (PageTarget.pageCb value) checked).selectedPages := by
  simp only [pagesChange, updateCurrentWords]

/-- C7 at the failing input: with lesson 1 loaded and selected, unchecking the
select-all page checkbox empties `selectedPages` and leaves the three words of
the previous selection in `currentWords`, where `computeWords` gives none; and
after page 1 was unchecked, checking select-all selects both pages and leaves
the one word C, where `computeWords` gives A, B, C. -/
theorem pagesChange_selectAll_keeps_stale_words :
    (run (loaded [lessonOne])
        [Action.lessons (LessonTarget.lessonCb (some 1)) true,
         Action.pages PageTarget.selectAllPages false])
      = { data := [lessonOne], currentWords := [word "A", word "B", word "C"],
          selectedLessons := [JsNum.int 1], selectedPages := [],
          lessonCbs := [some 1], pageCbs := ["1-1", "1-2"] }
    ∧ computeWords [lessonOne] [JsNum.int 1] [] = []
    ∧ (run (loaded [lessonOne])
        [Action.lessons (LessonTarget.lessonCb (some 1)) true,
         Action.pages (PageTarget.pageCb "1-1") false,
         Action.pages PageTarget.selectAllPages true])
      = { data := [lessonOne], currentWords := [word "C"],
          selectedLessons := [JsNum.int 1], selectedPages := ["1-2", "1-1"],
          lessonCbs := [some 1], pageCbs := ["1-1", "1-2"] }
    ∧ computeWords [lessonOne] [JsNum.int 1] ["1-2", "1-1"]
        = [word "A", word "B", word "C"] := by
  refine ⟨by decide, by decide, by decide, by decide⟩

/-- C8 at the failing input: with lesson 1 loaded and selected, deselecting it
empties both selection sets and leaves the three words of the previous
selection in `currentWords`, where `computeWords` gives none; the same happens
when select-all lessons is unchecked. -/
theorem lessonsChange_no_pages_keeps_stale_words :
    (run (loaded [lessonOne])
        [Action.lessons (LessonTarget.lessonCb (some 1)) true,
         Action.lessons (LessonTarget.lessonCb (some 1)) false])
      = { data := [lessonOne], currentWords := [word "A", word "B", word "C"],
          selectedLessons := [], selectedPages := [],
          lessonCbs := [some 1], pageCbs := [] }
    ∧ computeWords [lessonOne] [] [] = []
    ∧ (run (loaded [lessonOne])
        [Action.lessons LessonTarget.selectAllLessons true,
         Action.lessons LessonTarget.selectAllLessons false]).currentWords
      = [word "A", word "B", word "C"] := by
  refine ⟨by decide, by decide, by decide⟩

/-! ## Select-all pages -/

theorem selectAll_loop (checked : Bool) (cbs : List String) (s : App) :
    cbs.foldl (fun s cb =>
        if checked then { s with selectedPages := setAdd s.selectedPages cb }
        else { s with selectedPages := setDelete s.selectedPages cb }) s
      = { s with selectedPages :=
            (cbs.foldl (fun sp cb => if checked then setAdd sp cb else setDelete sp cb)
              s.selectedPages) } := by
  induction cbs generalizing s with
  | nil => rfl
  | cons cb cbs ih =>
    rw [List.foldl_cons, ih]
    cases checked <;> rfl

theorem pagesChange_selectAll_true (s : App) :
    pagesChange s PageTarget.selectAllPages true
      = { s with selectedPages := s.pageCbs.foldl setAdd s.selectedPages } := by
  have h := selectAll_loop true s.pageCbs s
  simpa [pagesChange] using h

theorem foldl_setAdd_absorb (ids acc : List String) (h : ∀ x ∈ ids, x ∈ acc) :
    ids.foldl setAdd acc = acc := by
  induction ids generalizing acc with
  | nil => rfl
  | cons i ids ih =>
    have hi : i ∈ acc := h i (List.mem_cons_self _ _)
    rw [List.foldl_cons, show setAdd acc i = acc from if_pos hi]
    exact ih acc (fun x hx => h x (List.mem_cons_of_mem _ hx))

theorem pagesChange_fixed (s : App) (target : PageTarget) (checked : Bool) :
    (pagesChange s target checked).data = s.data
    ∧ (pagesChange s target checked).selectedLessons = s.selectedLessons
    ∧ (pagesChange s target checked).pageCbs = s.pageCbs := by
  cases target with
  | selectAllPages =>
    simp only [pagesChange, selectAll_loop, and_self]
  | pageCb value =>
    cases checked <;> exact ⟨rfl, rfl, rfl⟩

theorem populatePageCheckboxes_rendered (s : App) : PagesRendered (populatePageCheckboxes s) := by
  unfold PagesRendered
  rw [populatePageCheckboxes_pageCbs, (populatePageCheckboxes_fixed s).1,
    (populatePageCheckboxes_fixed s).2.1]

theorem reachable_pagesRendered {s : App} (h : Reachable s) : PagesRendered s := by
  induction h with
  | init dbData outcomes =>
    cases dbData <;> rfl
  | step a _ _ ih =>
    cases a with
    | lessons target checked => exact populatePageCheckboxes_rendered _
    | pages target checked =>
      unfold PagesRendered at ih ⊢
      simp only [step]
      rw [(pagesChange_fixed _ target checked).1, (pagesChange_fixed _ target checked).2.1,
        (pagesChange_fixed _ target checked).2.2]
      exact ih

/-- C9: checking select-all pages twice in a row leaves the same
`selectedPages` as checking it once; after it every rendered page checkbox is
selected, and in every reachable state these are all pages of the selected
lessons found in the database. -/
theorem selectAllPages_true_idempotent (s : App) :
    (pagesChange (pagesChange s PageTarget.selectAllPages true)
        PageTarget.selectAllPages true).selectedPages
      = (pagesChange s PageTarget.selectAllPages true).selectedPages
    ∧ (∀ id ∈ s.pageCbs, id ∈ (pagesChange s PageTarget.selectAllPages true).selectedPages)
    ∧ (Reachable s → ∀ id, IsPageOfSelection s.data s.selectedLessons id →
        id ∈ (pagesChange s PageTarget.selectAllPages true).selectedPages) := by
  have hall : ∀ id ∈ s.pageCbs,
      id ∈ (pagesChange s PageTarget.selectAllPages true).selectedPages := by
    intro id hid
    rw [pagesChange_selectAll_true]
    exact (mem_foldl_setAdd _ _ _).2 (Or.inr hid)
  refine ⟨?_, hall, ?_⟩
  · rw [pagesChange_selectAll_true (pagesChange s PageTarget.selectAllPages true)]
    show List.foldl setAdd _ (pagesChange s PageTarget.selectAllPages true).pageCbs = _
    rw [(pagesChange_fixed s PageTarget.selectAllPages true).2.2]
    exact foldl_setAdd_absorb _ _ hall
  · intro hr id hid
    apply hall
    rw [reachable_pagesRendered hr]
    exact (mem_availablePages_ids _ _ _).2 hid

/-- C9 in the state reached by selecting lesson 1 and unchecking its page 1:
select-all selects page `1-1` of the selected lesson again. -/
theorem selectAllPages_true_idempotent_witness :
    "1-1" ∈ (pagesChange
      (run (loaded [lessonOne])
        [Action.lessons (LessonTarget.lessonCb (some 1)) true,
         Action.pages (PageTarget.pageCb "1-1") false])
      PageTarget.selectAllPages true).selectedPages :=
  (selectAllPages_true_idempotent
    (run (loaded [lessonOne])
      [Action.lessons (LessonTarget.lessonCb (some 1)) true,
       Action.pages (PageTarget.pageCb "1-1") false])).2.2
    (Reachable.step (Action.pages (PageTarget.pageCb "1-1") false)
      (Reachable.step (Action.lessons (LessonTarget.lessonCb (some 1)) true)
        (Reachable.init none [FetchOutcome.body (some { lessons := some [lessonOne] })])
        (by decide))
      (by decide))
    "1-1"
    ⟨JsNum.int 1, by decide, lessonOne, _, _, by decide, rfl, List.mem_cons_self _ _, by decide⟩

/-! ## PageId -/

theorem digitChar_mem (k : Nat) (h : k < 10) : Nat.digitChar k ∈ decimalDigits := by
  interval_cases k <;> decide

theorem digitValue_digitChar (k : Nat) (h : k < 10) : digitValue (Nat.digitChar k) = k := by
  interval_cases k <;> rfl

theorem decimalDigit_ne (c : Char) (h : c ∈ decimalDigits) : c ≠ '-' ∧ c ≠ 'u' := by
  simp only [decimalDigits, List.mem_cons, List.mem_singleton, List.not_mem_nil, or_false] at h
  rcases h with rfl | rfl | rfl | rfl | rfl | rfl | rfl | rfl | rfl | rfl <;> decide

theorem toDigitsCore_append (fuel n : Nat) (ds : List Char) :
    Nat.toDigitsCore 10 fuel n ds = Nat.toDigitsCore 10 fuel n [] ++ ds := by
  induction fuel generalizing n ds with
  | zero => simp [Nat.toDigitsCore]
  | succ fuel ih =>
    simp only [Nat.toDigitsCore]
    split
    · simp
    · rw [ih (n / 10) (Nat.digitChar (n % 10) :: ds), ih (n / 10) [Nat.digitChar (n % 10)]]
      simp

theorem readDigits_append_singleton (cs : List Char) (c : Char) :
    readDigits (cs ++ [c]) = 10 * readDigits cs + digitValue c := by
  simp [readDigits, List.foldl_append]

theorem toDigitsCore_spec (fuel n : Nat) (h : n < fuel) :
    readDigits (Nat.toDigitsCore 10 fuel n []) = n
    ∧ (∀ c ∈ Nat.toDigitsCore 10 fuel n [], c ∈ decimalDigits)
    ∧ Nat.toDigitsCore 10 fuel n [] ≠ [] := by
  induction fuel generalizing n with
  | zero => omega
  | succ fuel ih =>
    have hlt : n % 10 < 10 := Nat.mod_lt _ (by decide)
    simp only [Nat.toDigitsCore]
    split
    · rename_i h0
      refine ⟨?_, ?_, by simp⟩
      · have hn : n % 10 = n := by omega
        have hv := digitValue_digitChar _ hlt
        rw [hn] at hv ⊢
        simp [readDigits, hv]
      · intro c hc
        rw [List.mem_singleton] at hc
        rw [hc]; exact digitChar_mem _ hlt
    · rename_i h0
      have hfuel : n / 10 < fuel := by omega
      obtain ⟨h1, h2, _⟩ := ih (n / 10) hfuel
      rw [toDigitsCore_append]
      refine ⟨?_, ?_, by simp⟩
      · rw [readDigits_append_singleton, h1, digitValue_digitChar _ hlt]
        omega
      · intro c hc
        rcases List.mem_append.1 hc with hc | hc
        · exact h2 c hc
        · rw [List.mem_singleton] at hc
          rw [hc]; exact digitChar_mem _ hlt

theorem toDigits_spec (n : Nat) :
    readDigits (Nat.toDigits 10 n) = n
    ∧ (∀ c ∈ Nat.toDigits 10 n, c ∈ decimalDigits)
    ∧ Nat.toDigits 10 n ≠ [] :=
  toDigitsCore_spec (n + 1) n (Nat.lt_succ_self n)

theorem toDigits_injective (a b : Nat) (h : Nat.toDigits 10 a = Nat.toDigits 10 b) : a = b := by
  rw [← (toDigits_spec a).1, ← (toDigits_spec b).1, h]

theorem intToString_data (n : Int) :
    (intToString n).data
      = (if decide (n < 0) then ['-'] else []) ++ Nat.toDigits 10 n.natAbs := by
  unfold intToString
  by_cases h : n < 0
  · simp only [h, if_true, decide_True, String.data_append, Nat.repr, List.asString]
  · simp only [h, if_false, decide_False, Bool.false_eq_true, Nat.repr, List.asString,
      List.nil_append]

theorem toDigits_no_minus (n : Nat) : '-' ∉ Nat.toDigits 10 n :=
  fun h => (decimalDigit_ne _ ((toDigits_spec n).2.1 _ h)).1 rfl

theorem jsStr_rendered (x : Option Int) : IsRendered (jsStr x).data := by
  cases x with
  | none => exact ⟨false, "undefined".data, rfl, by decide, by decide⟩
  | some n =>
    exact ⟨decide (n < 0), Nat.toDigits 10 n.natAbs, intToString_data n,
      toDigits_no_minus _, (toDigits_spec _).2.2⟩

theorem intToString_injective (a b : Int) (h : intToString a = intToString b) : a = b := by
  have hd := congrArg String.data h
  rw [intToString_data, intToString_data] at hd
  have hhead : ∀ n : Nat, ∀ t : List Char, '-' :: t ≠ Nat.toDigits 10 n := by
    intro n t ht
    exact toDigits_no_minus n (ht ▸ List.mem_cons_self _ _)
  by_cases ha : a < 0 <;> by_cases hb : b < 0
  · simp only [ha, hb, decide_True, if_true, List.singleton_append, List.cons.injEq,
      true_and] at hd
    have := toDigits_injective _ _ hd
    omega
  · simp only [ha, hb, decide_True, decide_False, if_true, List.singleton_append,
      List.nil_append] at hd
    exact absurd hd (hhead _ _)
  · simp only [ha, hb, decide_True, decide_False, if_true, List.singleton_append,
      List.nil_append] at hd
    exact absurd hd.symm (hhead _ _)
  · simp only [ha, hb, decide_False, List.nil_append] at hd
    have := toDigits_injective _ _ hd
    omega

theorem jsStr_injective (x y : Option Int) (h : jsStr x = jsStr y) : x = y := by
  have hu : ∀ n : Int, "undefined" ≠ intToString n := by
    intro n hn
    have hd := congrArg String.data hn
    rw [intToString_data] at hd
    by_cases h0 : n < 0
    · simp only [h0, decide_True, if_true, List.singleton_append] at hd
      exact absurd hd (by simp [String.data])
    · simp only [h0, decide_False, Bool.false_eq_true, if_false, List.nil_append] at hd
      have hmem : 'u' ∈ Nat.toDigits 10 n.natAbs := by
        rw [← hd]; decide
      exact (decimalDigit_ne _ ((toDigits_spec _).2.1 _ hmem)).2 rfl
  cases x with
  | none =>
    cases y with
    | none => rfl
    | some b => exact absurd h (hu b)
  | some a =>
    cases y with
    | none => exact absurd h.symm (hu a)
    | some b => rw [intToString_injective a b h]

theorem split_at_first_minus (xs ys t1 t2 : List Char) (hx : '-' ∉ xs) (hy : '-' ∉ ys)
    (h : xs ++ '-' :: t1 = ys ++ '-' :: t2) : xs = ys ∧ t1 = t2 := by
  induction xs generalizing ys with
  | nil =>
    cases ys with
    | nil => simpa using h
    | cons y ys =>
      simp only [List.nil_append, List.cons_append, List.cons.injEq] at h
      exact absurd (h.1 ▸ List.mem_cons_self _ _) hy
  | cons x xs ih =>
    cases ys with
    | nil =>
      simp only [List.nil_append, List.cons_append, List.cons.injEq] at h
      exact absurd (h.1 ▸ List.mem_cons_self _ _) hx
    | cons y ys =>
      simp only [List.cons_append, List.cons.injEq] at h
      obtain ⟨h1, h2⟩ := ih ys (fun hm => hx (List.mem_cons_of_mem _ hm))
        (fun hm => hy (List.mem_cons_of_mem _ hm)) h.2
      exact ⟨by rw [h.1, h1], h2⟩

theorem rendered_split (r1 r2 t1 t2 : List Char) (h1 : IsRendered r1) (h2 : IsRendered r2)
    (h : r1 ++ '-' :: t1 = r2 ++ '-' :: t2) : r1 = r2 ∧ t1 = t2 := by
  obtain ⟨n1, b1, rfl, hm1, hne1⟩ := h1
  obtain ⟨n2, b2, rfl, hm2, hne2⟩ := h2
  have hhead : ∀ (b b' u u' : List Char), '-' ∉ b → b ≠ [] →
      '-' :: (b' ++ u') = b ++ u → False := by
    intro b b' u u' hb hbne hcontra
    cases b with
    | nil => exact hbne rfl
    | cons c b =>
      simp only [List.cons_append, List.cons.injEq] at hcontra
      exact hb (hcontra.1 ▸ List.mem_cons_self _ _)
  cases n1 <;> cases n2
  · simp only [Bool.false_eq_true, if_false, List.nil_append] at h ⊢
    exact split_at_first_minus _ _ _ _ hm1 hm2 h
  · simp only [Bool.false_eq_true, if_false, if_true, List.nil_append, List.singleton_append,
      List.cons_append] at h
    exact (hhead b1 b2 _ _ hm1 hne1 h.symm).elim
  · simp only [Bool.false_eq_true, if_false, if_true, List.nil_append, List.singleton_append,
      List.cons_append] at h
    exact (hhead b2 b1 _ _ hm2 hne2 h).elim
  · simp only [if_true, List.singleton_append, List.cons_append, List.cons.injEq,
      true_and] at h ⊢
    exact split_at_first_minus _ _ _ _ hm1 hm2 h

theorem renderedId_injective (l1 p1 l2 p2 : Option Int)
    (h : jsStr l1 ++ "-" ++ jsStr p1 = jsStr l2 ++ "-" ++ jsStr p2) : l1 = l2 ∧ p1 = p2 := by
  have hd := congrArg String.data h
  simp only [String.data_append, List.append_assoc] at hd
  simp only [List.singleton_append] at hd
  obtain ⟨hl, hp⟩ := rendered_split _ _ _ _ (jsStr_rendered l1) (jsStr_rendered l2) hd
  exact ⟨jsStr_injective _ _ (String.ext hl), jsStr_injective _ _ (String.ext hp)⟩

theorem mem_setAdd (sp : List String) (x y : String) : y ∈ setAdd sp x ↔ y ∈ sp ∨ y = x := by
  unfold setAdd
  split
  · rename_i hx
    constructor
    · exact Or.inl
    · rintro (h | rfl)
      · exact h
      · exact hx
  · simp

theorem mem_setDelete (sp : List String) (x y : String) :
    y ∈ setDelete sp x ↔ y ∈ sp ∧ y ≠ x := by
  simp [setDelete]

/-- A lesson-level mutation that leaves pages available recomputes the word
list. -/
theorem populatePageCheckboxes_recomputes_when_pages (s : App)
    (h : availablePages s.data s.selectedLessons ≠ []) :
    (populatePageCheckboxes s).currentWords
      = computeWords (populatePageCheckboxes s).data (populatePageCheckboxes s).selectedLessons
          (populatePageCheckboxes s).selectedPages := by
  have hlen : ¬ (availablePages s.data s.selectedLessons).length = 0 :=
    fun h0 => h (List.length_eq_zero.1 h0)
  simp only [populatePageCheckboxes, hlen, if_false, updateCurrentWords]

/-- The PageId of a lesson number and a page number, negative ones included,
determines both numbers; the page-population step and the aggregation step
build the same PageId for a page, which is that PageId when the lesson and the
page carry the numbers; and toggling one page leaves the membership in
`selectedPages` of the PageId of every other page as it was. -/
theorem pageId_injective (l1 p1 l2 p2 : Int) :
    (pageId l1 p1 = pageId l2 p2 → l1 = l2 ∧ p1 = p2)
    ∧ (∀ (lesson : Lesson) (p : Page), populatePageId lesson p = aggregatePageId lesson p)
    ∧ (∀ (lesson : Lesson) (p : Page), lesson.number = some l1 → p.number = some p1 →
        populatePageId lesson p = pageId l1 p1 ∧ aggregatePageId lesson p = pageId l1 p1)
    ∧ (∀ (s : App) (checked : Bool), (l1 ≠ l2 ∨ p1 ≠ p2) →
        (pageId l2 p2 ∈ (pagesChange s (PageTarget.pageCb (pageId l1 p1)) checked).selectedPages
          ↔ pageId l2 p2 ∈ s.selectedPages)) := by
  have hinj : pageId l1 p1 = pageId l2 p2 → l1 = l2 ∧ p1 = p2 := by
    intro h
    have := renderedId_injective (some l1) (some p1) (some l2) (some p2) h
    simpa using this
  refine ⟨hinj, fun _ _ => rfl, ?_, ?_⟩
  · intro lesson p hl hp
    simp only [populatePageId, aggregatePageId, hl, hp, pageId, jsStr, and_self]
  · intro s checked hne
    have hid : pageId l2 p2 ≠ pageId l1 p1 := by
      intro h
      obtain ⟨h1, h2⟩ := hinj h.symm
      rcases hne with hne | hne
      · exact hne h1
      · exact hne h2
    cases checked
    · simp only [pagesChange, updateCurrentWords, Bool.false_eq_true, if_false, mem_setDelete]
      exact ⟨fun h => h.1, fun h => ⟨h, hid⟩⟩
    · simp only [pagesChange, updateCurrentWords, if_true, mem_setAdd]
      exact ⟨fun h => h.resolve_right hid, Or.inl⟩

/-- The word list a page toggle computes: every page other than the toggled
one contributes its words exactly when its PageId was selected before the
toggle, the toggled page exactly when it is checked. -/
theorem pagesChange_pageCb_words (s : App) (value : String) (checked : Bool) :
    (pagesChange s (PageTarget.pageCb value) checked).currentWords
      = s.selectedLessons.flatMap (fun lessonNum =>
          match firstLessonNumbered s.data lessonNum with
          | none => []
          | some lesson =>
            ((lesson.pages.getD []).filter (fun p =>
                if jsStr lesson.number ++ "-" ++ jsStr p.number = value then checked
                else decide (jsStr lesson.number ++ "-" ++ jsStr p.number ∈ s.selectedPages))).flatMap
              (fun p => p.words.getD [])) := by
  have hb : ∀ x : String,
      decide (x ∈ (if checked then setAdd s.selectedPages value
                    else setDelete s.selectedPages value))
        = (if x = value then checked else decide (x ∈ s.selectedPages)) := by
    intro x
    cases checked
    · by_cases hx : x = value
      · simp [mem_setDelete, hx]
      · simp [mem_setDelete, hx]
    · by_cases hx : x = value
      · simp [mem_setAdd, hx]
      · simp [mem_setAdd, hx]
  have hcur : (pagesChange s (PageTarget.pageCb value) checked).currentWords
      = computeWords s.data s.selectedLessons
          (if checked then setAdd s.selectedPages value else setDelete s.selectedPages value) := by
    cases checked <;> rfl
  rw [hcur, computeWords_eq]
  simp only [selectedWords, hb]

/-- C10 at the failing input: with lesson 1 loaded and selected and
select-all pages unchecked, the word list still shows A, B, C; checking page
`1-1` then leaves A, B, so the toggle of page 1 of lesson 1 removes the word C
of page 2, whose PageId `1-2` differs from `1-1`. -/
theorem pageCb_toggle_removes_other_page_words :
    (run (loaded [lessonOne])
        [Action.lessons (LessonTarget.lessonCb (some 1)) true,
         Action.pages PageTarget.selectAllPages false]).currentWords
      = [word "A", word "B", word "C"]
    ∧ (run (loaded [lessonOne])
        [Action.lessons (LessonTarget.lessonCb (some 1)) true,
         Action.pages PageTarget.selectAllPages false,
         Action.pages (PageTarget.pageCb (pageId 1 1)) true]).currentWords
      = [word "A", word "B"]
    ∧ pageId 1 1 = "1-1" ∧ pageId 1 2 = "1-2" ∧ pageId 1 1 ≠ pageId 1 2
    ∧ lessonOne.pages
        = some [{ number := some 1, words := some [word "A", word "B"] },
                { number := some 2, words := some [word "C"] }] := by
  refine ⟨by decide, by decide, by decide, by decide, by decide, rfl⟩

end Weiner
